import Mathlib

/-!
Shallow embedding of `eaf_add_morphology.py` (class `EafProcessor`), the tool
that splices Tsakorpus JSON morphological analyses into ELAN (.eaf) files.

Conventions of the embedding:
* Python dicts holding a JSON analysis become association lists
  (`Ana := List (String × JVal)`); `ana[k]` with a possible `KeyError`
  becomes `anaGet` returning `Option`, with the `KeyError` made explicit
  at the use site (`Except PyError`).
* Python floats (segment times, in seconds) are modeled as exact rationals
  `ℚ`; all concrete times in the claims are far from the 0.1 s tolerance
  boundary, so float rounding cannot change any comparison modeled here.
* Python strings are modeled by `String`; `str.strip`/`str.lower` are
  modeled on the ASCII range (`pyStrip`/`strLower`), which covers every
  string the claims mention.
* `lxml` element trees are modeled by explicit lists of records
  (tiers, annotations, linguistic types, time slots).
* Uncaught Python exceptions become `Except.error` values of `PyError`.
-/

attribute [local semireducible] Rat.add Rat.sub Rat.mul Rat.inv Rat.ofScientific

/-- Uncaught Python exception kinds relevant to the modeled code paths. -/
inductive PyError where
  | keyError
  | indexError
  | attributeError
  | valueError
deriving DecidableEq

/-- A JSON value occurring as a field of an analysis: either a string or a
list of strings (the only shapes the source branches on with
`type(value) == list`). -/
inductive JVal where
  | str (s : String)
  | list (ss : List String)
deriving DecidableEq

/-- A JSON analysis object (`ana`): a Python dict modeled as an
association list from field name to value. -/
abbrev Ana := List (String × JVal)

/-- Python `ana[k]` lookup, as an `Option` (a `none` at a use site where the
source indexes unconditionally is turned into `PyError.keyError` there). -/
def anaGet : Ana → String → Option JVal
  | [], _ => none
  | (k, v) :: rest, key => if k = key then some v else anaGet rest key

/-- Python `'sep'.join(l)`. -/
def strIntercalate (sep : String) : List String → String
  | [] => ""
  | [x] => x
  | x :: xs => x ++ sep ++ strIntercalate sep xs

/-- The source's list-or-scalar handling with `'/'.join` (used for `lex` and
side-tier values). -/
def joinSlashVal : JVal → String
  | .str s => s
  | .list ss => strIntercalate "/" ss

/-- The source's list-or-scalar handling with `', '.join` (used for `gr.*`
values in `parse_ana`). -/
def joinCommaVal : JVal → String
  | .str s => s
  | .list ss => strIntercalate ", " ss

/-- ASCII lower-casing of one character (models Python `str.lower` on the
ASCII strings occurring in this development). -/
def asciiLower (c : Char) : Char :=
  if 'A' ≤ c ∧ c ≤ 'Z' then Char.ofNat (c.toNat + 32) else c

/-- Python `s.lower()` (ASCII range). -/
def strLower (s : String) : String := ⟨s.data.map asciiLower⟩

/-- ASCII whitespace, as stripped by Python `str.strip()`. -/
def isSpaceB (c : Char) : Bool :=
  c == ' ' || c == '\t' || c == '\n' || c == '\r' || c == Char.ofNat 11 || c == Char.ofNat 12

/-- Drop leading and trailing whitespace from a character list. -/
def trimChars (l : List Char) : List Char :=
  ((l.dropWhile isSpaceB).reverse.dropWhile isSpaceB).reverse

/-- Python `s.strip()` (ASCII whitespace). -/
def pyStrip (s : String) : String := ⟨trimChars s.data⟩

/-- The normalization `.strip().lower()` that `process_tier` applies to both
segment texts before comparing them. -/
def normText (s : String) : String := strLower (pyStrip s)

/-- Python `s.startswith(p)`. -/
def strStartsWithB (s p : String) : Bool := p.data.isPrefixOf s.data

/-- Python `s[n:]` (drop the first `n` characters). -/
def strDropChars (n : Nat) (s : String) : String := ⟨s.data.drop n⟩

/-- Insert into a list sorted by `le` (helper of `sortBy`). -/
def insertSorted (le : α → α → Bool) (a : α) : List α → List α
  | [] => [a]
  | b :: l => if le a b then a :: b :: l else b :: insertSorted le a l

/-- Insertion sort by a boolean comparison; used to model Python `sorted`.
Wherever the sort keys are pairwise distinct (always the case below: dict
keys, or key/original-index pairs), any correct sort produces exactly the
list Python's stable sort produces. -/
def sortBy (le : α → α → Bool) : List α → List α
  | [] => []
  | a :: l => insertSorted le a (sortBy le l)

/-- Lexicographic (code-point) strict comparison of character lists,
modeling Python string `<`. -/
def charListLt : List Char → List Char → Bool
  | [], [] => false
  | [], _ :: _ => true
  | _ :: _, [] => false
  | a :: l, b :: m => if a < b then true else if b < a then false else charListLt l m

/-- Python string `<=` (total preorder used by `sorted` on strings). -/
def strLeB (s t : String) : Bool := !(charListLt t.data s.data)

/-- Python `sorted(l, reverse=True)` on distinct strings. -/
def sortRevStr (l : List String) : List String := (sortBy strLeB l).reverse

/-- Decorate a list with positions starting at `i` (models Python
`enumerate`, used to give `sortBy` the stability tie-break of Python's
`sorted(..., key=...)`). -/
def enumFrom (i : Nat) : List α → List (Nat × α)
  | [] => []
  | a :: l => (i, a) :: enumFrom (i+1) l

/-- Order on position-decorated elements: by integer key, ties broken by
original position.  With this order any correct sort coincides with
Python's stable `sorted(l, key=k)`. -/
def lexKeyLe (k : α → Int) (x y : Nat × α) : Bool :=
  decide (k x.2 < k y.2) || (decide (k x.2 = k y.2) && decide (x.1 ≤ y.1))

/-- Python `sorted(l, key=k)` (stable sort by an integer key). -/
def stableSortByKey (k : α → Int) (l : List α) : List α :=
  (sortBy (lexKeyLe k) (enumFrom 0 l)).map Prod.snd

/-- `key_comp` from `parse_ana`.  The source's three-way test
(`'lang_props' not in settings or self.lang not in ... or
'gr_fields_order' not in ...`) is modeled by the `Option`: `none` means no
grammatical-field order is configured for the language. -/
def key_comp (grOrder : Option (List String)) (p : String × String) : Int :=
  match grOrder with
  | none => -1
  | some ord =>
    if p.1 ∉ ord then
      (if strLower p.1 = "pos" then -2 else (ord.length : Int))
    else (ord.indexOf p.1 : Int)

/-- The `grValues` list built by `parse_ana`: iterate the analysis's field
names in sorted order, keep those starting with `"gr."`, and pair the name
without the prefix with the (comma-joined) value.  The `getD` default is
unreachable: the field name was taken from the analysis itself. -/
def grValuesOf (ana : Ana) : List (String × String) :=
  ((sortBy strLeB (ana.map Prod.fst)).filter (fun f => strStartsWithB f "gr.")).map
    (fun f => (strDropChars 3 f, joinCommaVal ((anaGet ana f).getD (JVal.str ""))))

/-- The `gramm` accumulation loop of `parse_ana`: `if len(gramm) > 0:
gramm += ', '` then `gramm += fv[1]`. -/
def joinGramm (vals : List String) : String :=
  vals.foldl (fun g v => (if g.length > 0 then g ++ ", " else g) ++ v) ""

/-- The grammar-tag string `parse_ana` computes: `grValues` sorted stably by
`key_comp`, values joined by the `gramm` loop. -/
def grammString (grOrder : Option (List String)) (ana : Ana) : String :=
  joinGramm ((stableSortByKey (key_comp grOrder) (grValuesOf ana)).map Prod.snd)

/-- `parse_ana`: reads `ana['parts']` and `ana['gloss']` unconditionally
(an absent field is an uncaught `KeyError`), and computes the ordered
grammar-tag string. -/
def parse_ana (grOrder : Option (List String)) (ana : Ana) :
    Except PyError (String × JVal × JVal) :=
  match anaGet ana "parts" with
  | none => .error .keyError
  | some parts =>
    match anaGet ana "gloss" with
    | none => .error .keyError
    | some gloss => .ok (grammString grOrder ana, parts, gloss)

/-- One analyzed word from the JSON payload: surface form `wf`, token type
`wtype` (`"word"` vs. punctuation etc.), and the optional `ana` list
(`'ana' not in word` is modeled by `none`). -/
structure AWord where
  wf : String
  wtype : String
  ana : Option (List Ana)
deriving DecidableEq

/-- Configuration of an `EafProcessor` instance: the linguistic-type names
for the five fixed roles, the extra side-tier names, and the resolved
grammatical-field order for the processor's language (from
`conf/corpus.json`; `none` when no order is configured). -/
structure Config where
  wordType : String
  lemmaType : String
  grammType : String
  partsType : String
  glossType : String
  addLexTiers : List String
  addGrammTiers : List String
  grOrder : Option (List String)
deriving DecidableEq

/-- One `<ANNOTATION>/<REF_ANNOTATION>` element as built by
`create_dependent_annotation`: identifier, parent annotation identifier,
previous-sibling identifier (the empty string encodes the branch that omits
the `PREVIOUS_ANNOTATION` attribute), and the escaped text value. -/
structure Anno where
  aid : String
  parent : String
  prev : String
  value : String
deriving DecidableEq

/-- Expansion of one character under Python `html.escape` (quote=True). -/
def escapeHtmlChar (c : Char) : List Char :=
  if c = '&' then "&amp;".data
  else if c = '<' then "&lt;".data
  else if c = '>' then "&gt;".data
  else if c = '"' then "&quot;".data
  else if c = Char.ofNat 39 then "&#x27;".data
  else [c]

/-- Python `html.escape(text)` as applied to every annotation value. -/
def escapeHtml (s : String) : String := ⟨(s.data.map escapeHtmlChar).flatten⟩

/-- The identifier string `'a' + str(n)` the allocator produces. -/
def formatID (n : Nat) : String := "a" ++ toString n

/-- `create_dependent_annotation` (name shortened): the XML element it
returns, as a record. -/
def create_dependent_anno (curID parentID prevID text : String) : Anno :=
  ⟨curID, parentID, prevID, escapeHtml text⟩

/-- `tier.insert(-1, el)`: lxml/Python list insertion at index `-1`, i.e.
before the last child (or as the only child of an empty tier). -/
def tierInsert : List Anno → Anno → List Anno
  | [], a => [a]
  | [x], a => [a, x]
  | x :: y :: rest, a => x :: tierInsert (y :: rest) a

/-- Insert into one named side tier of a `name ↦ annotations` dict.  A miss
is impossible in the source (the dict keys are exactly the configured
names), so a missing key is a no-op here. -/
def sideInsert : List (String × List Anno) → String → Anno → List (String × List Anno)
  | [], _, _ => []
  | (n, l) :: rest, name, a =>
    if n = name then (n, tierInsert l a) :: rest else (n, l) :: sideInsert rest name a

/-- The annotation contents of the tiers `process_segment` inserts into. -/
structure TiersOut where
  wordT : List Anno
  lemmaT : List Anno
  grammT : List Anno
  partsT : List Anno
  glossT : List Anno
  addLexT : List (String × List Anno)
  addGrammT : List (String × List Anno)
deriving DecidableEq

def TiersOut.insWord (t : TiersOut) (a : Anno) : TiersOut := { t with wordT := tierInsert t.wordT a }

def TiersOut.insLemma (t : TiersOut) (a : Anno) : TiersOut := { t with lemmaT := tierInsert t.lemmaT a }

def TiersOut.insGramm (t : TiersOut) (a : Anno) : TiersOut := { t with grammT := tierInsert t.grammT a }

def TiersOut.insParts (t : TiersOut) (a : Anno) : TiersOut := { t with partsT := tierInsert t.partsT a }

def TiersOut.insGloss (t : TiersOut) (a : Anno) : TiersOut := { t with glossT := tierInsert t.glossT a }

def TiersOut.insAddLex (t : TiersOut) (name : String) (a : Anno) : TiersOut :=
  { t with addLexT := sideInsert t.addLexT name a }

def TiersOut.insAddGramm (t : TiersOut) (name : String) (a : Anno) : TiersOut :=
  { t with addGrammT := sideInsert t.addGrammT name a }

/-- `ana['lex']` with the list-or-scalar join; an absent `lex` is an
uncaught `KeyError` in `group_ana`. -/
def lexOf (ana : Ana) : Except PyError String :=
  match anaGet ana "lex" with
  | none => .error .keyError
  | some v => .ok (joinSlashVal v)

/-- Append `ana` to the group of `lex` (Python dict update in `group_ana`:
existing key appends to the value list, new key is added at the end). -/
def addToGroup : List (String × List Ana) → String → Ana → List (String × List Ana)
  | [], lex, ana => [(lex, [ana])]
  | (l, g) :: rest, lex, ana =>
    if l = lex then (l, g ++ [ana]) :: rest else (l, g) :: addToGroup rest lex ana

/-- The loop of `group_ana` over `word['ana']`. -/
def groupAnaGo : List Ana → List (String × List Ana) → Except PyError (List (String × List Ana))
  | [], acc => .ok acc
  | ana :: rest, acc =>
    match lexOf ana with
    | .error e => .error e
    | .ok lex => groupAnaGo rest (addToGroup acc lex ana)

/-- `group_ana`: group a word's analyses by (joined) lemma; a word without
an `ana` key yields the empty dict. -/
def group_ana (w : AWord) : Except PyError (List (String × List Ana)) :=
  match w.ana with
  | none => .ok []
  | some anas => groupAnaGo anas []

/-- Order on lemma groups, modeling `sorted(anaByLemma)` (sort the distinct
lemma keys as strings). -/
def groupLe (g1 g2 : String × List Ana) : Bool := strLeB g1.1 g2.1

/-- The `for addGrammTier in addGrammTiers` loop body of `process_segment`,
run for one analysis under the grammar annotation `curGrammID`.  `names` is
the dict iteration order (reverse-sorted configured names). -/
def sideGrammLoop (names : List String) (ana : Ana) (curGrammID : String) :
    Nat × TiersOut → Nat × TiersOut
  | (n, t) =>
    match names with
    | [] => (n, t)
    | name :: rest =>
      match anaGet ana name with
      | none => sideGrammLoop rest ana curGrammID (n, t)
      | some v =>
        let el := create_dependent_anno (formatID n) curGrammID "" (joinSlashVal v)
        sideGrammLoop rest ana curGrammID (n + 1, t.insAddGramm name el)

/-- The `for addLexTier in addLexTiers` loop body of `process_segment`, run
once per lemma group with the group's first analysis. -/
def sideLexLoop (names : List String) (firstAna : Ana) (curLemmaID : String) :
    Nat × TiersOut → Nat × TiersOut
  | (n, t) =>
    match names with
    | [] => (n, t)
    | name :: rest =>
      match anaGet firstAna name with
      | none => sideLexLoop rest firstAna curLemmaID (n, t)
      | some v =>
        let el := create_dependent_anno (formatID n) curLemmaID "" (joinSlashVal v)
        sideLexLoop rest firstAna curLemmaID (n + 1, t.insAddLex name el)

/-- Conversion of a `parts`/`gloss` value to annotation text.  The source
passes the raw value to `html.escape`, which raises `AttributeError` when
the value is a list instead of a string. -/
def jvalAsStr : JVal → Except PyError String
  | .str s => .ok s
  | .list _ => .error .attributeError

/-- The `for ana in anaByLemma[lemma]` loop of `process_segment`: per
analysis, allocate the gramm/parts/gloss identifiers, run `parse_ana`,
append the chained Grammar annotation and the parts/gloss annotations, then
the grammar side tiers. -/
def anasLoop (cfg : Config) (curLemmaID : String) :
    List Ana → String → Nat × TiersOut → Except PyError (Nat × TiersOut)
  | [], _, st => .ok st
  | ana :: rest, prevGrammID, (n, t) =>
    let curGrammID := formatID n
    let curPartsID := formatID (n + 1)
    let curGlossID := formatID (n + 2)
    match parse_ana cfg.grOrder ana with
    | .error e => .error e
    | .ok (gramm, parts, gloss) =>
      match jvalAsStr parts with
      | .error e => .error e
      | .ok partsS =>
        match jvalAsStr gloss with
        | .error e => .error e
        | .ok glossS =>
          let t1 := t.insGramm (create_dependent_anno curGrammID curLemmaID prevGrammID gramm)
          let t2 := t1.insParts (create_dependent_anno curPartsID curGrammID "" partsS)
          let t3 := t2.insGloss (create_dependent_anno curGlossID curPartsID "" glossS)
          let st4 := sideGrammLoop (sortRevStr cfg.addGrammTiers) ana curGrammID (n + 3, t3)
          anasLoop cfg curLemmaID rest curGrammID st4

/-- The `for lemma in sorted(anaByLemma)` loop of `process_segment`:
allocate the Lemma annotation, append the lexical side-tier values from the
group's first analysis, then process the group's analyses. -/
def lemmasLoop (cfg : Config) (curWordID : String) :
    List (String × List Ana) → String → Nat × TiersOut → Except PyError (Nat × TiersOut)
  | [], _, st => .ok st
  | (lem, g) :: rest, prevLemmaID, (n, t) =>
    let curLemmaID := formatID n
    let t1 := t.insLemma (create_dependent_anno curLemmaID curWordID prevLemmaID lem)
    let st2 := sideLexLoop (sortRevStr cfg.addLexTiers) (g.headD []) curLemmaID (n + 1, t1)
    match anasLoop cfg curLemmaID g "" st2 with
    | .error e => .error e
    | .ok st3 => lemmasLoop cfg curWordID rest curLemmaID st3

/-- The `for word in words` loop of `process_segment`: every token gets a
Word annotation chained by previous-identifier; word-kind tokens
additionally get their grouped analyses. -/
def wordsLoop (cfg : Config) (segID : String) :
    List AWord → String → Nat × TiersOut → Except PyError (Nat × TiersOut)
  | [], _, st => .ok st
  | w :: rest, prevWordID, (n, t) =>
    let curWordID := formatID n
    let t1 := t.insWord (create_dependent_anno curWordID segID prevWordID w.wf)
    if w.wtype ≠ "word" then
      wordsLoop cfg segID rest curWordID (n + 1, t1)
    else
      match group_ana w with
      | .error e => .error e
      | .ok groups =>
        match lemmasLoop cfg curWordID (sortBy groupLe groups) "" (n + 1, t1) with
        | .error e => .error e
        | .ok st2 => wordsLoop cfg segID rest curWordID st2

/-- `process_segment`: add the analyses of one matched segment's words,
threading the identifier counter `self.lastID` and the tier contents. -/
def process_segment (cfg : Config) (segID : String) (words : List AWord)
    (lastID : Nat) (tiers : TiersOut) : Except PyError (Nat × TiersOut) :=
  wordsLoop cfg segID words "" (lastID, tiers)

/-- A time-aligned analyzed segment derived from the JSON payload by
`collect_analyzed_segments`: start time (seconds), segment text, analyzed
words. -/
structure ASeg where
  text : String
  start_time : ℚ
  words : List AWord
deriving DecidableEq

/-- The `ANNOTATION_VALUE` child element of a document segment; `text =
none` models an element whose `.text` is Python `None`. -/
structure ValueEl where
  text : Option String
deriving DecidableEq

/-- One `ALIGNABLE_ANNOTATION` of a transcription tier as consumed by
`process_tier`: the optional `ANNOTATION_ID` attribute, the optional
`ANNOTATION_VALUE` child, and the segment's start time (the source reads it
as `self.tlis[segNode.attrib['TIME_SLOT_REF1']]['time']`; the time-slot
resolution itself is modeled by `get_tlis` below). -/
structure DocSeg where
  annotation_id : Option String
  value_el : Option ValueEl
  start_time : ℚ
deriving DecidableEq

/-- The loop guard of `process_tier`'s inner `while`: the candidate is
accepted exactly when its normalized text equals the (already normalized)
document-segment text and its start time is within ±0.1 s inclusive. -/
def segMatch (cand : ASeg) (segText : String) (startTime : ℚ) : Bool :=
  decide (normText cand.text = segText ∧
    startTime - 1/10 ≤ cand.start_time ∧ cand.start_time ≤ startTime + 1/10)

/-- Tail of the `while` loop of `process_tier`, walking the suffix of the
analyzed-segment list that starts at index `i`. -/
def findMatchGo (segText : String) (startTime : ℚ) : List ASeg → Nat → Nat
  | [], i => i
  | cand :: rest, i =>
    if segMatch cand segText startTime then i else findMatchGo segText startTime rest (i + 1)

/-- The `while` loop of `process_tier`: starting from cursor `i`, return the
index of the first acceptable analyzed segment, or the list length when the
cursor exhausts the list. -/
def findMatch (anaSegs : List ASeg) (segText : String) (startTime : ℚ) (i : Nat) : Nat :=
  findMatchGo segText startTime (anaSegs.drop i) i

/-- The indices the `while` loop compares against (consults), in order: the
cursor position and every index it advances over, including the matched
index when a match is found. -/
def consultGo (segText : String) (startTime : ℚ) : List ASeg → Nat → List Nat
  | [], _ => []
  | cand :: rest, i =>
    if segMatch cand segText startTime then [i] else i :: consultGo segText startTime rest (i + 1)

/-- The indices consulted when the `while` loop starts at cursor `i`. -/
def consultFrom (anaSegs : List ASeg) (segText : String) (startTime : ℚ) (i : Nat) : List Nat :=
  consultGo segText startTime (anaSegs.drop i) i

/-- What happened to one document segment that reached the matching phase:
the consulted analyzed-segment indices and the matched index, if any. -/
structure SegEvent where
  consulted : List Nat
  matched : Option Nat
deriving DecidableEq

/-- The per-tier loop state of `process_tier`: the cursor
`iCurAnaSegment`, the identifier counter `self.lastID`, the tier contents,
the three coverage counters, and the event log (the log is a proof
instrument; the source keeps the same information implicitly in its control
flow). -/
structure TierState where
  cursor : Nat
  lastID : Nat
  tiers : TiersOut
  nTokens : Nat
  nWords : Nat
  nAnalyzed : Nat
  events : List SegEvent
deriving DecidableEq

/-- Count of word-kind tokens (`nWords` increment). -/
def countWords (ws : List AWord) : Nat :=
  (ws.filter (fun w => w.wtype == "word")).length

/-- Count of analyzed word-kind tokens (`nAnalyzed` increment): word-kind,
with a nonempty `ana` list containing at least one nonempty analysis. -/
def countAnalyzed (ws : List AWord) : Nat :=
  (ws.filter (fun w => w.wtype == "word" &&
    (match w.ana with
     | some l => !l.isEmpty && l.any (fun a => !a.isEmpty)
     | none => false))).length

/-- The body of `process_tier`'s `for segNode in ...` loop for one document
segment.  Order of checks follows the source: cursor exhaustion, missing
`ANNOTATION_ID` attribute, text extraction
(`segNode.xpath('ANNOTATION_VALUE')[0].text.strip().lower()` — a missing
`ANNOTATION_VALUE` element raises an uncaught `IndexError`, a `None` text
raises `AttributeError` which the `try/except AttributeError` catches and
skips), then the `while` loop and, on a match, `process_segment`. -/
def stepSeg (cfg : Config) (anaSegs : List ASeg) (st : TierState) (seg : DocSeg) :
    Except PyError TierState :=
  if st.cursor ≥ anaSegs.length then .ok st
  else
    match seg.annotation_id with
    | none => .ok st
    | some aID =>
      match seg.value_el with
      | none => .error .indexError
      | some v =>
        match v.text with
        | none => .ok st
        | some rawText =>
          let segText := normText rawText
          let j := findMatch anaSegs segText seg.start_time st.cursor
          let cons := consultFrom anaSegs segText seg.start_time st.cursor
          if h : j < anaSegs.length then
            let ws := (anaSegs.get ⟨j, h⟩).words
            match process_segment cfg aID ws st.lastID st.tiers with
            | .error e => .error e
            | .ok (lastID2, tiers2) =>
              .ok { cursor := j, lastID := lastID2, tiers := tiers2,
                    nTokens := st.nTokens + ws.length,
                    nWords := st.nWords + countWords ws,
                    nAnalyzed := st.nAnalyzed + countAnalyzed ws,
                    events := st.events ++ [⟨cons, some j⟩] }
          else
            .ok { st with cursor := j, events := st.events ++ [⟨cons, none⟩] }

/-- Initial per-tier state of `process_tier` (cursor and counters start at
zero; the identifier counter and tier handles are inherited). -/
def initTierState (lastID : Nat) (tiers : TiersOut) : TierState :=
  ⟨0, lastID, tiers, 0, 0, 0, []⟩

/-- The `for segNode in tierNode.xpath(...)` loop of `process_tier`, one
`stepSeg` per document segment, aborting on the first uncaught error. -/
def tierLoop (cfg : Config) (anaSegs : List ASeg) :
    TierState → List DocSeg → Except PyError TierState
  | st, [] => .ok st
  | st, seg :: rest =>
    match stepSeg cfg anaSegs st seg with
    | .error e => .error e
    | .ok st2 => tierLoop cfg anaSegs st2 rest

/-- `process_tier`'s loop over the document segments of one transcription
tier (the tier-materialization prologue is modeled separately by
`get_analysis_tiers`; here the tier handles enter through `tiers`). -/
def processTier (cfg : Config) (anaSegs : List ASeg) (docSegs : List DocSeg)
    (lastID : Nat) (tiers : TiersOut) : Except PyError TierState :=
  tierLoop cfg anaSegs (initTierState lastID tiers) docSegs

/-- The sequence of matched analyzed-segment indices of one tier run, in
document order. -/
def matchTrace (cfg : Config) (anaSegs : List ASeg) (docSegs : List DocSeg)
    (lastID : Nat) (tiers : TiersOut) : Except PyError (List Nat) :=
  (processTier cfg anaSegs docSegs lastID tiers).map
    (fun st => st.events.filterMap (fun e => e.matched))

/-- One `TIME_SLOT` element: identifier and optional `TIME_VALUE`
attribute.  A present attribute is an integer number of milliseconds
(pre-parsed; the EAF schema makes `TIME_VALUE` an unsigned integer). -/
structure TimeSlot where
  slot_id : String
  timeValue : Option Int
deriving DecidableEq

/-- The loop of `get_tlis`: when `TIME_VALUE` is absent the source leaves
`timeValue = ''` and then calls `float('')`, which raises an uncaught
`ValueError`. -/
def getTlisGo : List TimeSlot → Nat → Except PyError (List (String × Nat × ℚ))
  | [], _ => .ok []
  | tli :: rest, i =>
    match tli.timeValue with
    | none => .error .valueError
    | some tv =>
      match getTlisGo rest (i + 1) with
      | .error e => .error e
      | .ok tail => .ok ((tli.slot_id, i, (tv : ℚ) / 1000) :: tail)

/-- `get_tlis`: map each time slot to its ordinal position and its time in
seconds (`TIME_VALUE / EAF_TIME_MULTIPLIER` with the multiplier 1000). -/
def get_tlis (slots : List TimeSlot) : Except PyError (List (String × Nat × ℚ)) :=
  getTlisGo slots 0

/-- One `TIER` element of the document, with the attributes
`get_analysis_tiers` reads and writes. -/
structure Tier where
  tier_id : String
  type_ref : String
  parent_ref : Option String
  participant : String
deriving DecidableEq

/-- The xpath `TIER[@LINGUISTIC_TYPE_REF=ty and @PARENT_REF=parent]`. -/
def findTiers (ts : List Tier) (ty parent : String) : List Tier :=
  ts.filter (fun t => decide (t.type_ref = ty ∧ t.parent_ref = some parent))

/-- `tierParent.insert(tierParent.index(node) + 1, new)`: insert right
after the (first) tier with identifier `refID`.  The source indexes by
object identity; identifiers disambiguate identically here because the
reference node is always the first tier with its identifier in document
order. -/
def insertAfterID : List Tier → String → Tier → List Tier
  | [], _, new => [new]
  | t :: rest, refID, new =>
    if t.tier_id = refID then t :: new :: rest else t :: insertAfterID rest refID new

/-- Fallback for the source's `xpath(...)[0]` immediately after a
conditional insertion; the list is nonempty there, so the default is
unreachable. -/
def dummyTier : Tier := ⟨"", "", none, ""⟩

/-- Build the `<TIER .../>` element `get_analysis_tiers` creates for a
role. -/
def mkTier (ty parent participant tid : String) : Tier :=
  ⟨tid, ty, some parent, participant⟩

/-- The result of `get_analysis_tiers`: the updated document tier list and
the returned tier handles. -/
structure GATResult where
  tiers : List Tier
  wordTier : Tier
  lemmaTier : Tier
  grammTier : Tier
  partsTier : Tier
  glossTier : Tier
  addLex : List (String × Tier)
  addGramm : List (String × Tier)
deriving DecidableEq

/-- Locate-or-create step for one of the five fixed roles: if no tier of
type `ty` under parent `parentID` exists, insert one right after the tier
`afterID`; then return the updated list and the first matching tier. -/
def ensureTier (ts : List Tier) (ty parentID afterID participant tid : String) :
    List Tier × Tier :=
  let ts1 := if (findTiers ts ty parentID).isEmpty
    then insertAfterID ts afterID (mkTier ty parentID participant tid)
    else ts
  (ts1, (findTiers ts1 ty parentID).headD dummyTier)

/-- Unconditional creation step for one configured side tier (the source
has no existence check here): insert right after `afterID`, then return the
first tier of that type under `parentID`. -/
def addSideTier (ts : List Tier) (ty parentID afterID participant : String) :
    List Tier × Tier :=
  let ts1 := insertAfterID ts afterID (mkTier ty parentID participant (ty ++ "@" ++ participant))
  (ts1, (findTiers ts1 ty parentID).headD dummyTier)

/-- The `for addLexTierName in sorted(self.addLexTiers, reverse=True)` loop
(likewise for grammar side tiers): create each side tier unconditionally
and collect the handles. -/
def sideTiersLoop (parentID afterID participant : String) :
    List String → List Tier → List Tier × List (String × Tier)
  | [], ts => (ts, [])
  | name :: rest, ts =>
    let (ts1, tr) := addSideTier ts name parentID afterID participant
    let (ts2, handles) := sideTiersLoop parentID afterID participant rest ts1
    (ts2, (name, tr) :: handles)

/-- `get_analysis_tiers`: locate or create the five fixed dependent tiers
for one base tier and participant, and unconditionally create the
configured side tiers. -/
def get_analysis_tiers (cfg : Config) (tierID participant : String) (ts : List Tier) :
    GATResult :=
  let (ts1, wordTier) := ensureTier ts cfg.wordType tierID tierID participant
    ("Words@" ++ participant)
  let wordTierID := wordTier.tier_id
  let (ts2, lemmaTier) := ensureTier ts1 cfg.lemmaType wordTierID wordTierID participant
    ("Lemma@" ++ participant)
  let lemmaTierID := lemmaTier.tier_id
  let (ts3, addLex) := sideTiersLoop lemmaTierID lemmaTierID participant
    (sortRevStr cfg.addLexTiers) ts2
  let (ts4, grammTier) := ensureTier ts3 cfg.grammType lemmaTierID lemmaTierID participant
    ("Gramm@" ++ participant)
  let grammTierID := grammTier.tier_id
  let (ts5, partsTier) := ensureTier ts4 cfg.partsType grammTierID grammTierID participant
    ("Morph@" ++ participant)
  let partsTierID := partsTier.tier_id
  let (ts6, glossTier) := ensureTier ts5 cfg.glossType partsTierID partsTierID participant
    ("Gloss@" ++ participant)
  let (ts7, addGramm) := sideTiersLoop grammTierID grammTierID participant
    (sortRevStr cfg.addGrammTiers) ts6
  ⟨ts7, wordTier, lemmaTier, grammTier, partsTier, glossTier, addLex, addGramm⟩

/-- One `LINGUISTIC_TYPE` declaration: structural constraint and type
identifier (the other two attributes are constants in the source). -/
structure LingType where
  constraints : String
  type_id : String
deriving DecidableEq

/-- The `tierAttrs` list of `check_tier_types`: `Symbolic_Subdivision` for
the word, lemma and gramm roles, `Symbolic_Association` for the parts and
gloss roles and for every configured side tier. -/
def tierAttrs (cfg : Config) : List (String × String) :=
  [("Symbolic_Subdivision", cfg.wordType),
   ("Symbolic_Subdivision", cfg.lemmaType),
   ("Symbolic_Subdivision", cfg.grammType),
   ("Symbolic_Association", cfg.partsType),
   ("Symbolic_Association", cfg.glossType)]
  ++ cfg.addLexTiers.map (fun n => ("Symbolic_Association", n))
  ++ cfg.addGrammTiers.map (fun n => ("Symbolic_Association", n))

/-- One iteration of the `for constraint, tierType in tierAttrs` loop of
`check_tier_types`: create the declaration only when no declaration with
that `LINGUISTIC_TYPE_ID` exists yet. -/
def cttStep (ds : List LingType) (cty : String × String) : List LingType :=
  if ds.any (fun d => d.type_id = cty.2) then ds else ds ++ [⟨cty.1, cty.2⟩]

/-- `check_tier_types`: add the missing global linguistic-type
declarations.  (The source inserts each new declaration right after the
last `TIER` element; only membership in the declaration set matters here,
so new declarations are appended.) -/
def check_tier_types (cfg : Config) (decls : List LingType) : List LingType :=
  (tierAttrs cfg).foldl cttStep decls

/-- The identifiers a full run of the allocator produces (numeric parts):
`self.lastID` starts at `recorded + 1`
(`int(...'lastUsedAnnotationId'...) + 1`), and each of the `k` allocations
returns the current counter and increments it. -/
def allocRun (recorded k : Nat) : List Nat :=
  (List.range k).map (fun i => recorded + 1 + i)

/-- End-to-end identifier bookkeeping of one document: the identifiers
present afterwards (pre-existing ones and the `k` freshly allocated ones)
and the written-back metadata `self.lastID - 1`.  Identifiers are the
strings `'a' + str(n)`; since the prefix is fixed and decimal notation is
injective, an identifier is modeled by its numeric part. -/
def processDocIDs (pre : List Nat) (recorded k : Nat) : List Nat × Nat :=
  (pre ++ allocRun recorded k, (recorded + 1 + k) - 1)

/-- Maximum of a list of numeric identifiers. -/
def maxList (l : List Nat) : Nat := l.foldr max 0

/-- The first two invariants the aligner run maintains on its event log:
matched indices never exceed the cursor, matched indices are monotone in
document order. -/
def matchOrdered (evs : List SegEvent) : Prop :=
  List.Pairwise (fun e1 e2 => ∀ m1 ∈ e1.matched, ∀ m2 ∈ e2.matched, m1 ≤ m2) evs

/-- Between any earlier and any later document segment of one tier run: the
earlier segment's matched index is at most every index the later segment
consults. -/
def consultAfterMatch (evs : List SegEvent) : Prop :=
  List.Pairwise (fun e1 e2 => ∀ m ∈ e1.matched, ∀ j ∈ e2.consulted, m ≤ j) evs

/-- The combined loop invariant of `tierLoop` used to prove the matching
order properties. -/
def alignInv (st : TierState) : Prop :=
  (∀ e ∈ st.events, ∀ m ∈ e.matched, m ≤ st.cursor) ∧
  matchOrdered st.events ∧ consultAfterMatch st.events

/-! ### Concrete fixtures used by counterexamples and witnesses -/

/-- Empty initial tier contents. -/
def tiers0 : TiersOut := ⟨[], [], [], [], [], [], []⟩

/-- The default role-name configuration with no side tiers and no
grammatical-field order. -/
def cfgS : Config := ⟨"words", "lemma", "gramm", "morph", "gloss", [], [], none⟩

/-- The `__main__` configuration of the source restricted to one grammar
side tier. -/
def cfgTR : Config := ⟨"words", "lemma", "gramm", "morph", "gloss", [], ["trans_ru"], none⟩

/-- A base transcription tier for participant `SP1`. -/
def baseTier : Tier := ⟨"tx@SP1", "tx", none, "SP1"⟩

/-- First run of the tier-hierarchy materialization on a document holding
only the base tier. -/
def gat1 : GATResult := get_analysis_tiers cfgTR "tx@SP1" "SP1" [baseTier]

/-- Second run, same base tier and participant, on the document produced by
the first run. -/
def gat2 : GATResult := get_analysis_tiers cfgTR "tx@SP1" "SP1" gat1.tiers

/-- A non-word token (no analyses). -/
def wPunct : AWord := ⟨"hi", "punct", none⟩

/-- One analyzed segment with text `"hello"` at 2 s. -/
def anaSegs3 : List ASeg := [⟨"hello", 2, [wPunct]⟩]

/-- Two document segments with identical text and time. -/
def docSegs3 : List DocSeg :=
  [⟨some "s1", some ⟨some "hello"⟩, 2⟩, ⟨some "s2", some ⟨some "hello"⟩, 2⟩]

/-- The final state of the `anaSegs3`/`docSegs3` tier run (the run
succeeds; the fallback branch is dead). -/
def stDemo : TierState :=
  match processTier cfgS anaSegs3 docSegs3 0 tiers0 with
  | .ok st => st
  | .error _ => initTierState 0 tiers0

/-- The state after the first step of that run. -/
def stStep1 : TierState :=
  match stepSeg cfgS anaSegs3 (initTierState 0 tiers0) ⟨some "s1", some ⟨some "hello"⟩, 2⟩ with
  | .ok st => st
  | .error _ => initTierState 0 tiers0

/-- Candidate segment `"hello world"` at 2.05 s with two word tokens. -/
def seg205 : ASeg := ⟨"hello world", 2.05, [⟨"hello", "word", none⟩, ⟨"world", "word", none⟩]⟩

/-- Candidate segment `"hello world"` at 2.2 s. -/
def seg220 : ASeg := ⟨"hello world", 2.2, [⟨"hello", "word", none⟩, ⟨"world", "word", none⟩]⟩

/-- A document segment with text `"hello world"` at 2 s. -/
def docSegHW : DocSeg := ⟨some "s1", some ⟨some "hello world"⟩, 2⟩

/-- An analysis with two grammatical fields, `gr.pos` not covered by any
configured order. -/
def ana5 : Ana :=
  [("gloss", .str "G"), ("gr.case", .str "nom"), ("gr.pos", .str "N"),
   ("lex", .str "x"), ("parts", .str "P")]

/-- A complete analysis (`lex`, `parts`, `gloss` all present). -/
def anaOK : Ana := [("gloss", .str "then"), ("lex", .str "kara"), ("parts", .str "kara")]

/-- A word whose only analysis lacks the `parts` field. -/
def wNoParts : AWord := ⟨"kara", "word", some [[("lex", JVal.str "kara"), ("gloss", JVal.str "then")]]⟩

/-- A word with one complete analysis. -/
def wOK : AWord := ⟨"kara", "word", some [anaOK]⟩

/-- Result of a successful `process_segment` run on `wOK` (the fallback
branch is dead). -/
def psDemo : Nat × TiersOut :=
  match process_segment cfgS "s1" [wOK] 5 tiers0 with
  | .ok o => o
  | .error _ => (0, tiers0)

/-! ### Helper lemmas -/

theorem mem_insertSorted {le : α → α → Bool} {a b : α} {l : List α} :
    b ∈ insertSorted le a l ↔ b = a ∨ b ∈ l := by
  induction l with
  | nil => simp [insertSorted]
  | cons c t ih =>
    simp only [insertSorted]
    split
    · simp [List.mem_cons]
    · simp only [List.mem_cons, ih]
      tauto

theorem mem_sortBy {le : α → α → Bool} {a : α} {l : List α} :
    a ∈ sortBy le l ↔ a ∈ l := by
  induction l with
  | nil => simp [sortBy]
  | cons c t ih => simp [sortBy, mem_insertSorted, ih]

theorem pairwise_insertSorted {le : α → α → Bool}
    (htot : ∀ a b, le a b = true ∨ le b a = true)
    (htr : ∀ a b c, le a b = true → le b c = true → le a c = true)
    {a : α} {l : List α} (h : l.Pairwise (fun x y => le x y = true)) :
    (insertSorted le a l).Pairwise (fun x y => le x y = true) := by
  induction l with
  | nil => simp [insertSorted]
  | cons b t ih =>
    simp only [insertSorted]
    split
    · rename_i hab
      refine List.Pairwise.cons ?_ h
      intro x hx
      rcases List.mem_cons.mp hx with rfl | hxt
      · exact hab
      · exact htr a b x hab (List.rel_of_pairwise_cons h hxt)
    · rename_i hab
      have hba : le b a = true := (htot a b).resolve_left (by simpa using hab)
      refine List.Pairwise.cons ?_ (ih (List.Pairwise.of_cons h))
      intro x hx
      rcases mem_insertSorted.mp hx with rfl | hxt
      · exact hba
      · exact List.rel_of_pairwise_cons h hxt

theorem pairwise_sortBy {le : α → α → Bool}
    (htot : ∀ a b, le a b = true ∨ le b a = true)
    (htr : ∀ a b c, le a b = true → le b c = true → le a c = true)
    (l : List α) : (sortBy le l).Pairwise (fun x y => le x y = true) := by
  induction l with
  | nil => exact List.Pairwise.nil
  | cons a t ih => exact pairwise_insertSorted htot htr ih

theorem lexKeyLe_total (k : α → Int) (x y : Nat × α) :
    lexKeyLe k x y = true ∨ lexKeyLe k y x = true := by
  simp only [lexKeyLe, Bool.or_eq_true, Bool.and_eq_true, decide_eq_true_eq]
  omega

theorem lexKeyLe_trans (k : α → Int) (x y z : Nat × α)
    (h1 : lexKeyLe k x y = true) (h2 : lexKeyLe k y z = true) :
    lexKeyLe k x z = true := by
  simp only [lexKeyLe, Bool.or_eq_true, Bool.and_eq_true, decide_eq_true_eq] at h1 h2 ⊢
  omega

theorem lexKeyLe_le {k : α → Int} {x y : Nat × α} (h : lexKeyLe k x y = true) :
    k x.2 ≤ k y.2 := by
  simp only [lexKeyLe, Bool.or_eq_true, Bool.and_eq_true, decide_eq_true_eq] at h
  omega

theorem exists_mem_enumFrom {a : α} {l : List α} (h : a ∈ l) :
    ∀ i : Nat, ∃ j, (j, a) ∈ enumFrom i l := by
  induction l with
  | nil => cases h
  | cons b t ih =>
    intro i
    rcases List.mem_cons.mp h with rfl | hat
    · exact ⟨i, List.mem_cons_self _ _⟩
    · obtain ⟨j, hj⟩ := ih hat (i + 1)
      exact ⟨j, List.mem_cons_of_mem _ hj⟩

theorem key_comp_ge {ord : List String} (p : String × String) :
    -2 ≤ key_comp (some ord) p := by
  simp only [key_comp]
  split
  · split <;> omega
  · omega

theorem key_comp_eq_neg2 {ord : List String} {p : String × String}
    (h : key_comp (some ord) p = -2) : strLower p.1 = "pos" ∧ p.1 ∉ ord := by
  simp only [key_comp] at h
  split at h
  · split at h
    · rename_i hni hpos
      exact ⟨hpos, hni⟩
    · omega
  · omega

theorem key_comp_pos_neg2 {ord : List String} {p : String × String}
    (hpos : strLower p.1 = "pos") (hni : p.1 ∉ ord) :
    key_comp (some ord) p = -2 := by
  simp [key_comp, hni, hpos]

theorem string_append_assoc (a b c : String) : a ++ b ++ c = a ++ (b ++ c) := by
  apply congrArg String.mk
  show (a.data ++ b.data) ++ c.data = a.data ++ (b.data ++ c.data)
  exact List.append_assoc _ _ _

theorem joinGramm_foldl_prefix :
    ∀ (l : List String) (g : String),
      ∃ s, l.foldl (fun g v => (if g.length > 0 then g ++ ", " else g) ++ v) g = g ++ s := by
  intro l
  induction l with
  | nil =>
    intro g
    refine ⟨"", ?_⟩
    apply congrArg String.mk
    exact (List.append_nil _).symm
  | cons v vs ih =>
    intro g
    obtain ⟨s, hs⟩ := ih ((if g.length > 0 then g ++ ", " else g) ++ v)
    simp only [List.foldl_cons] at *
    rw [hs]
    by_cases hg : g.length > 0
    · refine ⟨", " ++ v ++ s, ?_⟩
      rw [if_pos hg, string_append_assoc g ", " v, string_append_assoc]
    · refine ⟨v ++ s, ?_⟩
      rw [if_neg hg, string_append_assoc]

theorem joinGramm_cons (v : String) (vs : List String) :
    ∃ s, joinGramm (v :: vs) = v ++ s := by
  have h1 : joinGramm (v :: vs) =
      vs.foldl (fun g v => (if g.length > 0 then g ++ ", " else g) ++ v) v := rfl
  rw [h1]
  exact joinGramm_foldl_prefix vs v

theorem parse_ana_ok_gramm {grOrder : Option (List String)} {ana : Ana}
    {r : String × JVal × JVal} (h : parse_ana grOrder ana = .ok r) :
    r.1 = grammString grOrder ana := by
  unfold parse_ana at h
  cases hp : anaGet ana "parts" with
  | none => rw [hp] at h; cases h
  | some parts =>
    rw [hp] at h
    cases hg : anaGet ana "gloss" with
    | none => rw [hg] at h; cases h
    | some gloss =>
      rw [hg] at h
      cases h
      rfl

theorem parse_ana_ok_fields {grOrder : Option (List String)} {ana : Ana}
    {r : String × JVal × JVal} (h : parse_ana grOrder ana = .ok r) :
    (anaGet ana "parts").isSome ∧ (anaGet ana "gloss").isSome := by
  unfold parse_ana at h
  cases hp : anaGet ana "parts" with
  | none => rw [hp] at h; cases h
  | some parts =>
    rw [hp] at h
    cases hg : anaGet ana "gloss" with
    | none => rw [hg] at h; cases h
    | some gloss => exact ⟨rfl, rfl⟩

theorem mem_allocRun {r k x : Nat} : x ∈ allocRun r k ↔ ∃ i, i < k ∧ x = r + 1 + i := by
  simp only [allocRun, List.mem_map, List.mem_range]
  constructor
  · rintro ⟨i, hi, rfl⟩; exact ⟨i, hi, rfl⟩
  · rintro ⟨i, hi, rfl⟩; exact ⟨i, hi, rfl⟩

theorem allocRun_nodup (r k : Nat) : (allocRun r k).Nodup := by
  refine List.Nodup.map ?_ (List.nodup_range k)
  intro a b h
  have h2 : r + 1 + a = r + 1 + b := h
  omega

theorem maxList_le {l : List Nat} {m : Nat} : maxList l ≤ m ↔ ∀ x ∈ l, x ≤ m := by
  induction l with
  | nil => simp [maxList]
  | cons a t ih =>
    simp only [maxList, List.foldr_cons, Nat.max_le, List.mem_cons] at *
    constructor
    · rintro ⟨h1, h2⟩ x (rfl | hx)
      · exact h1
      · exact ih.mp h2 x hx
    · intro h
      exact ⟨h a (Or.inl rfl), ih.mpr (fun x hx => h x (Or.inr hx))⟩

theorem le_maxList {l : List Nat} {x : Nat} (h : x ∈ l) : x ≤ maxList l := by
  induction l with
  | nil => cases h
  | cons a t ih =>
    rcases List.mem_cons.mp h with rfl | hx
    · exact Nat.le_max_left _ _
    · exact Nat.le_trans (ih hx) (Nat.le_max_right _ _)

theorem cttStep_mem {ds : List LingType} {d : LingType} {cty : String × String}
    (h : d ∈ ds) : d ∈ cttStep ds cty := by
  unfold cttStep
  split
  · exact h
  · exact List.mem_append_left _ h

theorem foldl_cttStep_mem :
    ∀ (attrs : List (String × String)) (ds : List LingType) (d : LingType),
      d ∈ ds → d ∈ attrs.foldl cttStep ds := by
  intro attrs
  induction attrs with
  | nil => intro ds d h; exact h
  | cons cty rest ih =>
    intro ds d h
    exact ih _ _ (cttStep_mem h)

theorem foldl_cttStep_adds :
    ∀ (attrs : List (String × String)) (ds : List LingType) (c ty : String),
      (c, ty) ∈ attrs → (attrs.map Prod.snd).Nodup →
      (∀ d ∈ ds, d.type_id ∉ attrs.map Prod.snd) →
      (⟨c, ty⟩ : LingType) ∈ attrs.foldl cttStep ds := by
  intro attrs
  induction attrs with
  | nil => intro ds c ty h; cases h
  | cons cty rest ih =>
    intro ds c ty hmem hnd hfresh
    rcases List.mem_cons.mp hmem with heq | htail
    · have hty : cty.2 = ty := by rw [← heq]
      have hstep : cttStep ds cty = ds ++ [⟨cty.1, cty.2⟩] := by
        unfold cttStep
        rw [if_neg]
        intro hany
        rcases List.any_eq_true.mp hany with ⟨d, hd, hdty⟩
        refine hfresh d hd ?_
        simp only [List.map_cons, List.mem_cons]
        exact Or.inl (of_decide_eq_true hdty)
      have : (⟨c, ty⟩ : LingType) ∈ cttStep ds cty := by
        rw [hstep, ← heq]
        exact List.mem_append_right _ (List.mem_singleton.mpr rfl)
      simpa using foldl_cttStep_mem rest (cttStep ds cty) _ this
    · have hnd2 : (rest.map Prod.snd).Nodup := by
        simp only [List.map_cons, List.nodup_cons] at hnd
        exact hnd.2
      have hhead : cty.2 ∉ rest.map Prod.snd := by
        simp only [List.map_cons, List.nodup_cons] at hnd
        exact hnd.1
      have hfresh2 : ∀ d ∈ cttStep ds cty, d.type_id ∉ rest.map Prod.snd := by
        intro d hd
        unfold cttStep at hd
        split at hd
        · intro hc
          exact hfresh d hd (by simp only [List.map_cons, List.mem_cons]; exact Or.inr hc)
        · rcases List.mem_append.mp hd with hold | hnew
          · intro hc
            exact hfresh d hold (by simp only [List.map_cons, List.mem_cons]; exact Or.inr hc)
          · rcases List.mem_singleton.mp hnew with rfl
            exact hhead
      simpa using ih (cttStep ds cty) c ty htail hnd2 hfresh2

theorem findMatchGo_ge (segText : String) (t : ℚ) :
    ∀ (l : List ASeg) (i : Nat), i ≤ findMatchGo segText t l i := by
  intro l
  induction l with
  | nil => intro i; simp [findMatchGo]
  | cons c rest ih =>
    intro i
    simp only [findMatchGo]
    split
    · exact Nat.le_refl i
    · exact Nat.le_trans (Nat.le_succ i) (ih (i + 1))

theorem findMatch_ge (anaSegs : List ASeg) (segText : String) (t : ℚ) (i : Nat) :
    i ≤ findMatch anaSegs segText t i :=
  findMatchGo_ge segText t (anaSegs.drop i) i

theorem consultGo_ge (segText : String) (t : ℚ) :
    ∀ (l : List ASeg) (i j : Nat), j ∈ consultGo segText t l i → i ≤ j := by
  intro l
  induction l with
  | nil => intro i j h; cases h
  | cons c rest ih =>
    intro i j h
    simp only [consultGo] at h
    split at h
    · rcases List.mem_singleton.mp h with rfl
      exact Nat.le_refl j
    · rcases List.mem_cons.mp h with rfl | hj
      · exact Nat.le_refl j
      · exact Nat.le_trans (Nat.le_succ i) (ih (i + 1) j hj)

theorem consultFrom_ge {anaSegs : List ASeg} {segText : String} {t : ℚ} {i j : Nat}
    (h : j ∈ consultFrom anaSegs segText t i) : i ≤ j :=
  consultGo_ge segText t (anaSegs.drop i) i j h

/-- Case summary of one aligner step: the cursor never decreases, and the
event log either stays or grows by one event whose consulted indices all
lie at or after the pre-step cursor and whose matched index (if any) is the
post-step cursor. -/
theorem stepSeg_spec {cfg : Config} {anaSegs : List ASeg} {st : TierState} {seg : DocSeg}
    {st2 : TierState} (h : stepSeg cfg anaSegs st seg = .ok st2) :
    st.cursor ≤ st2.cursor ∧
    (st2.events = st.events ∨
      ∃ ev : SegEvent, st2.events = st.events ++ [ev] ∧
        (∀ j ∈ ev.consulted, st.cursor ≤ j) ∧
        (∀ m ∈ ev.matched, m = st2.cursor)) := by
  unfold stepSeg at h
  split at h
  · cases h
    exact ⟨Nat.le_refl _, Or.inl rfl⟩
  · split at h
    · cases h
      exact ⟨Nat.le_refl _, Or.inl rfl⟩
    · split at h
      · cases h
      · split at h
        · cases h
          exact ⟨Nat.le_refl _, Or.inl rfl⟩
        · dsimp only at h
          split at h
          · split at h
            · cases h
            · cases h
              refine ⟨findMatch_ge _ _ _ _, Or.inr ⟨_, rfl, ?_, ?_⟩⟩
              · intro j hj
                exact consultFrom_ge hj
              · intro m hm
                simp only [Option.mem_def, Option.some.injEq] at hm
                subst hm
                rfl
          · cases h
            refine ⟨findMatch_ge _ _ _ _, Or.inr ⟨_, rfl, ?_, ?_⟩⟩
            · intro j hj
              exact consultFrom_ge hj
            · intro m hm
              simp only [Option.mem_def] at hm
              cases hm

theorem stepSeg_inv {cfg : Config} {anaSegs : List ASeg} {st : TierState} {seg : DocSeg}
    {st2 : TierState} (h : stepSeg cfg anaSegs st seg = .ok st2) (hinv : alignInv st) :
    alignInv st2 := by
  obtain ⟨hc, hev⟩ := stepSeg_spec h
  obtain ⟨h1, h2, h3⟩ := hinv
  rcases hev with heq | ⟨ev, heq, hcons, hmat⟩
  · refine ⟨?_, ?_, ?_⟩
    · rw [heq]
      intro e he m hm
      exact Nat.le_trans (h1 e he m hm) hc
    · rw [heq]
      exact h2
    · rw [heq]
      exact h3
  · refine ⟨?_, ?_, ?_⟩
    · rw [heq]
      intro e he m hm
      rcases List.mem_append.mp he with hold | hnew
      · exact Nat.le_trans (h1 e hold m hm) hc
      · rcases List.mem_singleton.mp hnew with rfl
        rw [hmat m hm]
    · unfold matchOrdered at h2 ⊢
      rw [heq, List.pairwise_append]
      refine ⟨h2, by simp, ?_⟩
      intro a ha b hb
      rcases List.mem_singleton.mp hb with rfl
      intro m1 hm1 m2 hm2
      have ha1 := h1 a ha m1 hm1
      have hb1 := hmat m2 hm2
      omega
    · unfold consultAfterMatch at h3 ⊢
      rw [heq, List.pairwise_append]
      refine ⟨h3, by simp, ?_⟩
      intro a ha b hb
      rcases List.mem_singleton.mp hb with rfl
      intro m hm j hj
      have ha1 := h1 a ha m hm
      have hj1 := hcons j hj
      omega

theorem tierLoop_inv (cfg : Config) (anaSegs : List ASeg) :
    ∀ (docSegs : List DocSeg) (st st2 : TierState),
      tierLoop cfg anaSegs st docSegs = .ok st2 → alignInv st → alignInv st2 := by
  intro docSegs
  induction docSegs with
  | nil =>
    intro st st2 h hinv
    unfold tierLoop at h
    cases h
    exact hinv
  | cons seg rest ih =>
    intro st st2 h hinv
    unfold tierLoop at h
    cases hs : stepSeg cfg anaSegs st seg with
    | error e => rw [hs] at h; cases h
    | ok st1 =>
      rw [hs] at h
      exact ih st1 st2 h (stepSeg_inv hs hinv)

theorem initTierState_inv (lastID : Nat) (tiers : TiersOut) :
    alignInv (initTierState lastID tiers) := by
  refine ⟨?_, ?_, ?_⟩
  · intro e he
    cases he
  · exact List.Pairwise.nil
  · exact List.Pairwise.nil

theorem addToGroup_mem_self :
    ∀ (acc : List (String × List Ana)) (lex : String) (ana : Ana),
      ∃ g ∈ addToGroup acc lex ana, ana ∈ g.2 := by
  intro acc
  induction acc with
  | nil =>
    intro lex ana
    exact ⟨(lex, [ana]), List.mem_singleton.mpr rfl, List.mem_singleton.mpr rfl⟩
  | cons p rest ih =>
    intro lex ana
    obtain ⟨l, gl⟩ := p
    unfold addToGroup
    split
    · exact ⟨(l, gl ++ [ana]), List.mem_cons_self _ _, List.mem_append_right _ (List.mem_singleton.mpr rfl)⟩
    · obtain ⟨g, hg, hag⟩ := ih lex ana
      exact ⟨g, List.mem_cons_of_mem _ hg, hag⟩

theorem addToGroup_preserve :
    ∀ (acc : List (String × List Ana)) (lex : String) (b a : Ana),
      (∃ g ∈ acc, a ∈ g.2) → ∃ g ∈ addToGroup acc lex b, a ∈ g.2 := by
  intro acc
  induction acc with
  | nil =>
    intro lex b a h
    obtain ⟨g, hg, _⟩ := h
    cases hg
  | cons p rest ih =>
    intro lex b a h
    obtain ⟨l, gl⟩ := p
    obtain ⟨g, hg, hag⟩ := h
    unfold addToGroup
    split
    · rcases List.mem_cons.mp hg with rfl | hgt
      · exact ⟨(l, gl ++ [b]), List.mem_cons_self _ _, List.mem_append_left _ hag⟩
      · exact ⟨g, List.mem_cons_of_mem _ hgt, hag⟩
    · rcases List.mem_cons.mp hg with rfl | hgt
      · exact ⟨(l, gl), List.mem_cons_self _ _, hag⟩
      · obtain ⟨g2, hg2, hag2⟩ := ih lex b a ⟨g, hgt, hag⟩
        exact ⟨g2, List.mem_cons_of_mem _ hg2, hag2⟩

theorem groupAnaGo_mem_mono :
    ∀ (anas : List Ana) (acc gs : List (String × List Ana)) (a : Ana),
      (∃ g ∈ acc, a ∈ g.2) → groupAnaGo anas acc = .ok gs → ∃ g ∈ gs, a ∈ g.2 := by
  intro anas
  induction anas with
  | nil =>
    intro acc gs a h hgo
    unfold groupAnaGo at hgo
    cases hgo
    exact h
  | cons ana rest ih =>
    intro acc gs a h hgo
    unfold groupAnaGo at hgo
    cases hl : lexOf ana with
    | error e => rw [hl] at hgo; cases hgo
    | ok lex =>
      rw [hl] at hgo
      exact ih _ gs a (addToGroup_preserve acc lex ana a h) hgo

theorem groupAnaGo_mem :
    ∀ (anas : List Ana) (acc gs : List (String × List Ana)) (a : Ana),
      a ∈ anas → groupAnaGo anas acc = .ok gs → ∃ g ∈ gs, a ∈ g.2 := by
  intro anas
  induction anas with
  | nil =>
    intro acc gs a h
    cases h
  | cons ana rest ih =>
    intro acc gs a ha hgo
    unfold groupAnaGo at hgo
    cases hl : lexOf ana with
    | error e => rw [hl] at hgo; cases hgo
    | ok lex =>
      rw [hl] at hgo
      rcases List.mem_cons.mp ha with rfl | hat
      · exact groupAnaGo_mem_mono rest _ gs a (addToGroup_mem_self acc lex a) hgo
      · exact ih _ gs a hat hgo

theorem anasLoop_ok (cfg : Config) (curLemmaID : String) :
    ∀ (anas : List Ana) (prev : String) (st st2 : Nat × TiersOut),
      anasLoop cfg curLemmaID anas prev st = .ok st2 →
      ∀ a ∈ anas, ∃ r, parse_ana cfg.grOrder a = .ok r := by
  intro anas
  induction anas with
  | nil =>
    intro prev st st2 h a ha
    cases ha
  | cons ana rest ih =>
    intro prev st st2 h a ha
    obtain ⟨n, t⟩ := st
    unfold anasLoop at h
    dsimp only at h
    cases hp : parse_ana cfg.grOrder ana with
    | error e => rw [hp] at h; cases h
    | ok r =>
      rw [hp] at h
      obtain ⟨gramm, parts, gloss⟩ := r
      dsimp only at h
      cases hps : jvalAsStr parts with
      | error e => rw [hps] at h; cases h
      | ok partsS =>
        rw [hps] at h
        dsimp only at h
        cases hgs : jvalAsStr gloss with
        | error e => rw [hgs] at h; cases h
        | ok glossS =>
          rw [hgs] at h
          dsimp only at h
          rcases List.mem_cons.mp ha with rfl | hat
          · exact ⟨_, hp⟩
          · exact ih _ _ st2 h a hat

theorem lemmasLoop_ok (cfg : Config) (curWordID : String) :
    ∀ (groups : List (String × List Ana)) (prev : String) (st st2 : Nat × TiersOut),
      lemmasLoop cfg curWordID groups prev st = .ok st2 →
      ∀ g ∈ groups, ∀ a ∈ g.2, ∃ r, parse_ana cfg.grOrder a = .ok r := by
  intro groups
  induction groups with
  | nil =>
    intro prev st st2 h g hg
    cases hg
  | cons p rest ih =>
    intro prev st st2 h g hg
    obtain ⟨lem, gl⟩ := p
    obtain ⟨n, t⟩ := st
    unfold lemmasLoop at h
    dsimp only at h
    cases ha : anasLoop cfg (formatID n) gl ""
        (sideLexLoop (sortRevStr cfg.addLexTiers) (gl.headD []) (formatID n)
          (n + 1, t.insLemma (create_dependent_anno (formatID n) curWordID prev lem))) with
    | error e => rw [ha] at h; cases h
    | ok st3 =>
      rw [ha] at h
      rcases List.mem_cons.mp hg with rfl | hgt
      · intro a hag
        exact anasLoop_ok cfg (formatID n) gl "" _ st3 ha a hag
      · exact ih _ st3 st2 h g hgt

theorem wordsLoop_ok (cfg : Config) (segID : String) :
    ∀ (words : List AWord) (prev : String) (st st2 : Nat × TiersOut),
      wordsLoop cfg segID words prev st = .ok st2 →
      ∀ w ∈ words, w.wtype = "word" → ∀ l, w.ana = some l →
        ∀ a ∈ l, (anaGet a "parts").isSome ∧ (anaGet a "gloss").isSome := by
  intro words
  induction words with
  | nil =>
    intro prev st st2 h w hw
    cases hw
  | cons w0 rest ih =>
    intro prev st st2 h w hw hty l hl a ha
    obtain ⟨n, t⟩ := st
    unfold wordsLoop at h
    dsimp only at h
    split at h
    · rcases List.mem_cons.mp hw with rfl | hwt
      · rename_i hne
        exact absurd hty hne
      · exact ih _ _ st2 h w hwt hty l hl a ha
    · cases hg : group_ana w0 with
      | error e => rw [hg] at h; cases h
      | ok groups =>
        rw [hg] at h
        dsimp only at h
        cases hll : lemmasLoop cfg (formatID n) (sortBy groupLe groups) ""
            (n + 1, t.insWord (create_dependent_anno (formatID n) segID prev w0.wf)) with
        | error e => rw [hll] at h; cases h
        | ok st3 =>
          rw [hll] at h
          rcases List.mem_cons.mp hw with rfl | hwt
          · have hgo : groupAnaGo l [] = .ok groups := by
              unfold group_ana at hg
              rw [hl] at hg
              exact hg
            obtain ⟨g, hgmem, hag⟩ := groupAnaGo_mem l [] groups a ha hgo
            have hgsort : g ∈ sortBy groupLe groups := mem_sortBy.mpr hgmem
            obtain ⟨r, hr⟩ := lemmasLoop_ok cfg (formatID n) _ "" _ st3 hll g hgsort a hag
            exact parse_ana_ok_fields hr
          · exact ih _ _ st2 h w hwt hty l hl a ha

theorem lexKeyLe_refl (k : α → Int) (x : Nat × α) : lexKeyLe k x x = true := by
  simp [lexKeyLe]

/-! ### Claim theorems -/

/-- C1 (code_bug): running `get_analysis_tiers` a second time for the same
base tier and participant is supposed to create no new tier elements, but
the configured side-tier loops create their tiers unconditionally: with one
grammar side tier `trans_ru`, the first run turns a one-tier document into
seven tiers, and the second run adds an eighth, a duplicate `trans_ru`
tier — while the type declarations of `check_tier_types` are idempotent. -/
theorem c1_side_tiers_duplicated :
    gat1.tiers.length = 7 ∧ gat2.tiers.length = 8 ∧
    (gat1.tiers.filter (fun t => decide (t.type_ref = "trans_ru"))).length = 1 ∧
    (gat2.tiers.filter (fun t => decide (t.type_ref = "trans_ru"))).length = 2 ∧
    check_tier_types cfgTR (check_tier_types cfgTR []) = check_tier_types cfgTR [] :=
  ⟨rfl, rfl, rfl, rfl, rfl⟩

/-- C2 (corrected), counterexample: with duplicate pre-existing identifiers
`[1, 1]`, recorded last-used identifier `5` and zero allocations, the
stated precondition (every pre-existing identifier is at most the recorded
one) holds, yet the resulting identifiers are not pairwise distinct and the
written-back metadata `5` differs from the maximum identifier present `1`. -/
theorem c2_counterexample_stale_metadata :
    (∀ i ∈ ([1, 1] : List Nat), i ≤ 5) ∧
    ¬ ((processDocIDs [1, 1] 5 0).1.Nodup ∧
       (processDocIDs [1, 1] 5 0).2 = maxList (processDocIDs [1, 1] 5 0).1) := by
  decide

/-- C2 (corrected): if additionally the pre-existing identifiers are
pairwise distinct and at least one identifier is allocated, then all
identifiers in the resulting document are pairwise distinct and the final
last-used-identifier metadata equals the maximum identifier present. -/
theorem c2_alloc_distinct_and_max (pre : List Nat) (recorded k : Nat)
    (hnd : pre.Nodup) (hle : ∀ i ∈ pre, i ≤ recorded) (hk : 0 < k) :
    (processDocIDs pre recorded k).1.Nodup ∧
    (processDocIDs pre recorded k).2 = maxList (processDocIDs pre recorded k).1 := by
  constructor
  · simp only [processDocIDs]
    rw [List.nodup_append]
    refine ⟨hnd, allocRun_nodup recorded k, ?_⟩
    intro x hx hx2
    obtain ⟨i, hik, rfl⟩ := mem_allocRun.mp hx2
    have := hle _ hx
    omega
  · simp only [processDocIDs]
    have hmax : maxList (pre ++ allocRun recorded k) = recorded + k := by
      apply Nat.le_antisymm
      · rw [maxList_le]
        intro x hx
        rcases List.mem_append.mp hx with hpre | halloc
        · exact Nat.le_trans (hle x hpre) (Nat.le_add_right _ _)
        · obtain ⟨i, hik, rfl⟩ := mem_allocRun.mp halloc
          omega
      · apply le_maxList
        apply List.mem_append_right
        rw [mem_allocRun]
        exact ⟨k - 1, by omega, by omega⟩
    rw [hmax]
    omega

/-- C2 witness: the amended statement applied to pre-existing identifiers
`[3, 5]`, recorded identifier `5`, two allocations. -/
theorem c2_alloc_distinct_and_max_witness :
    (processDocIDs [3, 5] 5 2).1.Nodup ∧
    (processDocIDs [3, 5] 5 2).2 = maxList (processDocIDs [3, 5] 5 2).1 :=
  c2_alloc_distinct_and_max [3, 5] 5 2 (by decide) (by decide) (by decide)

/-- C3 (corrected), counterexample: after a match the cursor stays on the
matched analyzed segment, so one analyzed segment can be matched by two
document segments: with one analyzed segment `"hello"` at 2 s and two
document segments of the same text and time, the match trace is `[0, 0]` —
the same AlignedSegment is consumed twice, refuting consumption-at-most-
once. -/
theorem c3_counterexample_rematch :
    matchTrace cfgS anaSegs3 docSegs3 0 tiers0 = Except.ok [0, 0] ∧
    ¬ ([0, 0] : List Nat).Nodup :=
  ⟨rfl, by decide⟩

/-- C3 (corrected): what does hold is that the aligner never looks back
before an earlier match: for any two document segments in order, every
analyzed-segment index the later one consults (and in particular matches)
is at least the earlier one's matched index. -/
theorem c3_no_consult_before_earlier_match :
    ∀ (cfg : Config) (anaSegs : List ASeg) (docSegs : List DocSeg) (lastID : Nat)
      (tiers : TiersOut) (st2 : TierState),
      processTier cfg anaSegs docSegs lastID tiers = Except.ok st2 →
      consultAfterMatch st2.events := by
  intro cfg anaSegs docSegs lastID tiers st2 h
  exact (tierLoop_inv cfg anaSegs docSegs _ st2 h (initTierState_inv lastID tiers)).2.2

/-- C3 witness: the amended statement on the concrete double-match run. -/
theorem c3_no_consult_before_earlier_match_witness : consultAfterMatch stDemo.events :=
  c3_no_consult_before_earlier_match cfgS anaSegs3 docSegs3 0 tiers0 stDemo rfl

/-- C4 (code_bug): `get_tlis` maps a slot with a time value to its ordinal
and `TIME_VALUE / 1000` seconds, but a slot without a time value does not
map to 0 — the `float('')` call raises an uncaught `ValueError`, so the
builder does have a failure mode. -/
theorem c4_missing_time_value_error :
    get_tlis [⟨"ts1", some 2050⟩] = Except.ok [("ts1", 0, 41/20)] ∧
    get_tlis [⟨"ts1", some 2050⟩, ⟨"ts2", none⟩] = Except.error PyError.valueError :=
  ⟨rfl, rfl⟩

/-- C5 (corrected), counterexample: with no ordering configuration for the
language, every category gets sort key -1 and the order is simply the
sorted field-name order; for an analysis with `gr.case = nom` and
`gr.pos = N` the produced grammar-tag string is `"nom, N"` — the `pos`
value is not placed first. -/
theorem c5_counterexample_no_config :
    parse_ana none ana5 = Except.ok ("nom, N", JVal.str "P", JVal.str "G") ∧
    ∀ s : String, ("nom, N" : String) ≠ "N" ++ s := by
  refine ⟨rfl, ?_⟩
  intro s heq
  have hd : ("nom, N" : String).data = ("N" ++ s).data := congrArg String.data heq
  have h3 : ("nom, N" : String).data.head? = ('N' :: s.data).head? := by
    rw [hd]
    rfl
  have h4 : some 'n' = some 'N' := h3
  exact absurd (Option.some.inj h4) (by decide)

/-- C5 (corrected): when an ordering configuration exists for the language,
a grammatical category whose lower-cased name is literally `"pos"` and that
is absent from the configured list is placed first: the stably sorted
`grValues` list starts with such a category and the grammar-tag string
produced by `parse_ana` starts with its value. -/
theorem c5_pos_first_with_config (ord : List String) (ana : Ana) (p : String × String)
    (hp : p ∈ grValuesOf ana) (hpos : strLower p.1 = "pos") (hni : p.1 ∉ ord) :
    ∃ q rest, stableSortByKey (key_comp (some ord)) (grValuesOf ana) = q :: rest ∧
      strLower q.1 = "pos" ∧ q.1 ∉ ord ∧
      (∃ s, grammString (some ord) ana = q.2 ++ s) ∧
      (∀ r, parse_ana (some ord) ana = Except.ok r → ∃ s, r.1 = q.2 ++ s) := by
  obtain ⟨ip, hip⟩ := exists_mem_enumFrom hp 0
  have hmemS : (ip, p) ∈ sortBy (lexKeyLe (key_comp (some ord))) (enumFrom 0 (grValuesOf ana)) :=
    mem_sortBy.mpr hip
  cases hs : sortBy (lexKeyLe (key_comp (some ord))) (enumFrom 0 (grValuesOf ana)) with
  | nil =>
    rw [hs] at hmemS
    cases hmemS
  | cons d ds =>
    have hpw := pairwise_sortBy (lexKeyLe_total (key_comp (some ord)))
      (lexKeyLe_trans (key_comp (some ord))) (enumFrom 0 (grValuesOf ana))
    rw [hs] at hpw hmemS
    have hdp : lexKeyLe (key_comp (some ord)) d (ip, p) = true := by
      rcases List.mem_cons.mp hmemS with heq | hmem2
      · rw [← heq]
        exact lexKeyLe_refl _ _
      · exact List.rel_of_pairwise_cons hpw hmem2
    have hkp : key_comp (some ord) (ip, p).2 = -2 := key_comp_pos_neg2 hpos hni
    have hkd_le : key_comp (some ord) d.2 ≤ -2 := by
      have h5 := lexKeyLe_le hdp
      rw [hkp] at h5
      exact h5
    have hkd : key_comp (some ord) d.2 = -2 :=
      le_antisymm hkd_le (key_comp_ge d.2)
    obtain ⟨hqo, hqni⟩ := key_comp_eq_neg2 hkd
    have hgs : grammString (some ord) ana =
        joinGramm (d.2.2 :: (ds.map Prod.snd).map Prod.snd) := by
      simp [grammString, stableSortByKey, hs]
    refine ⟨d.2, ds.map Prod.snd, ?_, hqo, hqni, ?_, ?_⟩
    · simp [stableSortByKey, hs]
    · rw [hgs]
      exact joinGramm_cons _ _
    · intro r hr
      rw [parse_ana_ok_gramm hr, hgs]
      exact joinGramm_cons _ _

/-- C5 witness: the amended statement applied to the order list `["case"]`
and the analysis `ana5` (whose `gr.pos` is absent from the list). -/
theorem c5_pos_first_with_config_witness :
    ∃ q rest, stableSortByKey (key_comp (some ["case"])) (grValuesOf ana5) = q :: rest ∧
      strLower q.1 = "pos" ∧ q.1 ∉ ["case"] ∧
      (∃ s, grammString (some ["case"]) ana5 = q.2 ++ s) ∧
      (∀ r, parse_ana (some ["case"]) ana5 = Except.ok r → ∃ s, r.1 = q.2 ++ s) :=
  c5_pos_first_with_config ["case"] ana5 ("pos", "N") (by decide) (by decide) (by decide)

/-- C6 (corrected), counterexample: the declaration `check_tier_types`
creates for a configured side tier (`trans_ru`) carries the
`Symbolic_Association` constraint, not `Symbolic_Subdivision` as the claim
states. -/
theorem c6_counterexample_side_tier_constraint :
    (⟨"Symbolic_Association", "trans_ru"⟩ : LingType) ∈ check_tier_types cfgTR [] ∧
    (⟨"Symbolic_Subdivision", "trans_ru"⟩ : LingType) ∉ check_tier_types cfgTR [] := by
  decide

/-- C6 (corrected): for distinct, not yet declared role names,
`check_tier_types` declares the word, lemma and grammar roles with the
`Symbolic_Subdivision` constraint and the morph-parts role, the gloss role
and every configured side tier with `Symbolic_Association`. -/
theorem c6_constraints (cfg : Config) (decls : List LingType)
    (hnd : ((tierAttrs cfg).map Prod.snd).Nodup)
    (hfresh : ∀ d ∈ decls, d.type_id ∉ (tierAttrs cfg).map Prod.snd) :
    (⟨"Symbolic_Subdivision", cfg.wordType⟩ : LingType) ∈ check_tier_types cfg decls ∧
    (⟨"Symbolic_Subdivision", cfg.lemmaType⟩ : LingType) ∈ check_tier_types cfg decls ∧
    (⟨"Symbolic_Subdivision", cfg.grammType⟩ : LingType) ∈ check_tier_types cfg decls ∧
    (⟨"Symbolic_Association", cfg.partsType⟩ : LingType) ∈ check_tier_types cfg decls ∧
    (⟨"Symbolic_Association", cfg.glossType⟩ : LingType) ∈ check_tier_types cfg decls ∧
    (∀ n ∈ cfg.addLexTiers,
      (⟨"Symbolic_Association", n⟩ : LingType) ∈ check_tier_types cfg decls) ∧
    (∀ n ∈ cfg.addGrammTiers,
      (⟨"Symbolic_Association", n⟩ : LingType) ∈ check_tier_types cfg decls) := by
  have base : ∀ c ty, (c, ty) ∈ tierAttrs cfg →
      (⟨c, ty⟩ : LingType) ∈ check_tier_types cfg decls := by
    intro c ty hmem
    exact foldl_cttStep_adds _ decls c ty hmem hnd hfresh
  refine ⟨base _ _ (by simp [tierAttrs]), base _ _ (by simp [tierAttrs]),
    base _ _ (by simp [tierAttrs]), base _ _ (by simp [tierAttrs]),
    base _ _ (by simp [tierAttrs]), ?_, ?_⟩
  · intro n hn
    refine base _ _ ?_
    exact List.mem_append_left _ (List.mem_append_right _ (List.mem_map.mpr ⟨n, hn, rfl⟩))
  · intro n hn
    refine base _ _ ?_
    exact List.mem_append_right _ (List.mem_map.mpr ⟨n, hn, rfl⟩)

/-- C6 witness: the amended statement applied to the `trans_ru`
configuration starting from an empty declaration list. -/
theorem c6_constraints_witness :
    (⟨"Symbolic_Subdivision", cfgTR.wordType⟩ : LingType) ∈ check_tier_types cfgTR [] ∧
    (⟨"Symbolic_Subdivision", cfgTR.lemmaType⟩ : LingType) ∈ check_tier_types cfgTR [] ∧
    (⟨"Symbolic_Subdivision", cfgTR.grammType⟩ : LingType) ∈ check_tier_types cfgTR [] ∧
    (⟨"Symbolic_Association", cfgTR.partsType⟩ : LingType) ∈ check_tier_types cfgTR [] ∧
    (⟨"Symbolic_Association", cfgTR.glossType⟩ : LingType) ∈ check_tier_types cfgTR [] ∧
    (∀ n ∈ cfgTR.addLexTiers,
      (⟨"Symbolic_Association", n⟩ : LingType) ∈ check_tier_types cfgTR []) ∧
    (∀ n ∈ cfgTR.addGrammTiers,
      (⟨"Symbolic_Association", n⟩ : LingType) ∈ check_tier_types cfgTR []) :=
  c6_constraints cfgTR [] (by decide) (by decide)

/-- C7 (confirmed): the aligner's cursor never decreases across one
document segment, and over a whole tier run the matched analyzed-segment
indices are monotonically non-decreasing in document order: an earlier
matched document segment's analyzed segment never appears later than a
later one's. -/
theorem c7_cursor_monotone_order_preserving :
    (∀ (cfg : Config) (anaSegs : List ASeg) (st : TierState) (seg : DocSeg) (st2 : TierState),
        stepSeg cfg anaSegs st seg = Except.ok st2 → st.cursor ≤ st2.cursor) ∧
    (∀ (cfg : Config) (anaSegs : List ASeg) (docSegs : List DocSeg) (lastID : Nat)
        (tiers : TiersOut) (st2 : TierState),
        processTier cfg anaSegs docSegs lastID tiers = Except.ok st2 →
        matchOrdered st2.events) := by
  constructor
  · intro cfg anaSegs st seg st2 h
    exact (stepSeg_spec h).1
  · intro cfg anaSegs docSegs lastID tiers st2 h
    exact (tierLoop_inv cfg anaSegs docSegs _ st2 h (initTierState_inv lastID tiers)).2.1

/-- C7 witness: both parts applied to the concrete run of `anaSegs3` /
`docSegs3`. -/
theorem c7_cursor_monotone_order_preserving_witness :
    (initTierState 0 tiers0).cursor ≤ stStep1.cursor ∧ matchOrdered stDemo.events :=
  ⟨c7_cursor_monotone_order_preserving.1 cfgS anaSegs3 (initTierState 0 tiers0)
      ⟨some "s1", some ⟨some "hello"⟩, 2⟩ stStep1 rfl,
   c7_cursor_monotone_order_preserving.2 cfgS anaSegs3 docSegs3 0 tiers0 stDemo rfl⟩

/-- C8 (confirmed): the aligner's loop stops at (accepts) the candidate at
the cursor exactly when the candidate's normalized text equals the document
segment's normalized text and the candidate's start time is within ±0.1 s
inclusive; in particular an equal-text candidate at 2.05 s matches a
document segment at 2.00 s and one at 2.2 s does not. -/
theorem c8_acceptance :
    (∀ (anaSegs : List ASeg) (rawText : String) (t : ℚ) (i : Nat) (h : i < anaSegs.length),
        findMatch anaSegs (normText rawText) t i = i ↔
          (normText (anaSegs.get ⟨i, h⟩).text = normText rawText ∧
           t - 1/10 ≤ (anaSegs.get ⟨i, h⟩).start_time ∧
           (anaSegs.get ⟨i, h⟩).start_time ≤ t + 1/10)) ∧
    segMatch seg205 (normText "hello world") 2 = true ∧
    segMatch seg220 (normText "hello world") 2 = false ∧
    matchTrace cfgS [seg205] [docSegHW] 0 tiers0 = Except.ok [0] ∧
    matchTrace cfgS [seg220] [docSegHW] 0 tiers0 = Except.ok [] := by
  refine ⟨?_, by decide, by decide, rfl, rfl⟩
  intro anaSegs rawText t i h
  unfold findMatch
  rw [List.drop_eq_getElem_cons h]
  unfold findMatchGo
  split
  · rename_i hm
    unfold segMatch at hm
    exact ⟨fun _ => of_decide_eq_true hm, fun _ => rfl⟩
  · rename_i hm
    constructor
    · intro heq
      exfalso
      have hge := findMatchGo_ge (normText rawText) t (anaSegs.drop (i + 1)) (i + 1)
      omega
    · intro hcond
      exfalso
      apply hm
      unfold segMatch
      exact decide_eq_true hcond

/-- C8 witness: the characterization applied at the concrete 2.05 s
candidate. -/
theorem c8_acceptance_witness : findMatch [seg205] (normText "hello world") 2 0 = 0 :=
  (c8_acceptance.1 [seg205] "hello world" 2 0 (by decide)).mpr (by decide)

/-- C9 (corrected), counterexample: a document segment that has an
`ANNOTATION_ID` but no `ANNOTATION_VALUE` element is not skipped — the
`[0]` indexing raises an uncaught `IndexError` (the `try/except` only
catches `AttributeError`). -/
theorem c9_counterexample_missing_value_el :
    stepSeg cfgS anaSegs3 (initTierState 0 tiers0) ⟨some "s1", none, 2⟩ =
      Except.error PyError.indexError := rfl

/-- C9 (corrected): a document segment whose `ANNOTATION_ID` attribute is
missing, or whose annotation value text is `None`, is skipped without any
error, without changing any state (in particular the coverage counters),
and processing continues with the later segments. -/
theorem c9_skip_malformed :
    (∀ (cfg : Config) (anaSegs : List ASeg) (st : TierState) (seg : DocSeg),
        (seg.annotation_id = none ∨ ∃ v, seg.value_el = some v ∧ v.text = none) →
        stepSeg cfg anaSegs st seg = Except.ok st) ∧
    (∀ (cfg : Config) (anaSegs : List ASeg) (st : TierState) (seg : DocSeg)
        (rest : List DocSeg),
        (seg.annotation_id = none ∨ ∃ v, seg.value_el = some v ∧ v.text = none) →
        tierLoop cfg anaSegs st (seg :: rest) = tierLoop cfg anaSegs st rest) := by
  have hmain : ∀ (cfg : Config) (anaSegs : List ASeg) (st : TierState) (seg : DocSeg),
      (seg.annotation_id = none ∨ ∃ v, seg.value_el = some v ∧ v.text = none) →
      stepSeg cfg anaSegs st seg = Except.ok st := by
    intro cfg anaSegs st seg hskip
    unfold stepSeg
    split
    · rfl
    · rcases hskip with hid | ⟨v, hv, hvt⟩
      · rw [hid]
      · cases hid2 : seg.annotation_id with
        | none => rfl
        | some aID =>
          simp only [hv, hvt]
  refine ⟨hmain, ?_⟩
  intro cfg anaSegs st seg rest hskip
  have h1 := hmain cfg anaSegs st seg hskip
  have h2 : tierLoop cfg anaSegs st (seg :: rest) =
      match stepSeg cfg anaSegs st seg with
      | .error e => .error e
      | .ok st2 => tierLoop cfg anaSegs st2 rest := rfl
  rw [h2, h1]

/-- C9 witness: the skip behavior applied to a concrete segment with no
`ANNOTATION_ID`. -/
theorem c9_skip_malformed_witness :
    stepSeg cfgS anaSegs3 (initTierState 0 tiers0) ⟨none, none, 0⟩ =
      Except.ok (initTierState 0 tiers0) :=
  c9_skip_malformed.1 cfgS anaSegs3 (initTierState 0 tiers0) ⟨none, none, 0⟩ (Or.inl rfl)

/-- C10 (confirmed): a successful `process_segment` run requires every
analysis of every word-kind token to contain both the `parts` and the
`gloss` field (they are read unconditionally by `parse_ana`); an analysis
lacking one of them aborts the run with an uncaught `KeyError` instead of
being skipped, as the concrete run on `wNoParts` shows. -/
theorem c10_parts_gloss_required :
    (∀ (cfg : Config) (segID : String) (words : List AWord) (lastID : Nat)
        (tiers : TiersOut) (out : Nat × TiersOut),
        process_segment cfg segID words lastID tiers = Except.ok out →
        ∀ w ∈ words, w.wtype = "word" → ∀ l, w.ana = some l →
          ∀ a ∈ l, (anaGet a "parts").isSome ∧ (anaGet a "gloss").isSome) ∧
    process_segment cfgS "s1" [wNoParts] 5 tiers0 = Except.error PyError.keyError := by
  constructor
  · intro cfg segID words lastID tiers out h
    exact wordsLoop_ok cfg segID words "" (lastID, tiers) out h
  · rfl

/-- C10 witness: the requirement read off a concrete successful run on
`wOK`. -/
theorem c10_parts_gloss_required_witness :
    (anaGet anaOK "parts").isSome ∧ (anaGet anaOK "gloss").isSome :=
  c10_parts_gloss_required.1 cfgS "s1" [wOK] 5 tiers0 psDemo rfl wOK
    (List.mem_singleton.mpr rfl) rfl [anaOK] rfl anaOK (List.mem_singleton.mpr rfl)
